import Mathlib

/-!
Shallow embedding of the `migrate_wrapper` Python package
(`src/migrate_wrapper/{wrapper,scanner,command,models}.py`).

Modelling conventions:
* A finished external process is a `ProcResult` (exit code, captured stdout and
  stderr text), mirroring `subprocess.CompletedProcess` with `text=True`.
* Each wrapper operation only post-processes such a result, so each method is
  embedded as a pure function of the `ProcResult` of its own subprocess plus,
  where the Python method re-queries the current version, the `ProcResult` of
  that inner `version` subprocess (`vres`).
* Raised Python exceptions become `Except.error`; returned values become
  `Except.ok` (or plain values for methods that never raise).
* The migrations directory is a quiescent list of file names (`List String`);
  `Path.glob("*.sql")` is the suffix filter, and file existence is membership
  in that list.
* Text is processed as `List Char`; `str.strip`, `str.lower` and the ASCII
  word/digit classes of Python's `re` module are modelled character-wise
  (the strings this program matches against are ASCII).
-/

/-- Character-wise lower-casing, modelling Python `str.lower()` on ASCII text. -/
def lowerChars (cs : List Char) : List Char := cs.map Char.toLower

/-- Strip leading and trailing whitespace, modelling Python `str.strip()`. -/
def trimChars (cs : List Char) : List Char :=
  ((cs.dropWhile Char.isWhitespace).reverse.dropWhile Char.isWhitespace).reverse

/-- Substring test, modelling Python `needle in hay`. -/
def hasInfix (needle : List Char) : List Char → Bool
  | [] => needle.isEmpty
  | c :: rest => needle.isPrefixOf (c :: rest) || hasInfix needle rest

/-- Case-insensitive substring test, modelling Python `needle in s.lower()`
(the needle is written lower-case at every call site). -/
def containsCI (s : String) (needle : String) : Bool :=
  hasInfix needle.toList (lowerChars s.toList)

/-- Numeric value of a digit string, modelling Python `int(...)` on a `\d+` match. -/
def natOfDigits (ds : List Char) : Nat :=
  ds.foldl (fun n c => 10 * n + (c.toNat - 48)) 0

/-- Word character class of Python `re` (`[A-Za-z0-9_]` on ASCII text). -/
def isWordChar (c : Char) : Bool := c.isAlphanum || c == '_'

/-- Python `X or Y` for `X : Optional[str]`: `Y` when `X` is `None` or the
empty string (both are falsy). -/
def orDefault (o : Option String) (d : String) : String :=
  match o with
  | some s => if s = "" then d else s
  | none => d

/-- Insertion step of the insertion sort modelling Python `sorted(..., key=...)`.
Both scanner call sites sort by a duplicate-free numeric key, so the stability
of Python's sort cannot be observed and a plain insertion sort is a faithful
model. -/
def insertLe (le : α → α → Bool) (a : α) : List α → List α
  | [] => [a]
  | b :: l => if le a b then a :: b :: l else b :: insertLe le a l

/-- Model of Python `sorted` with comparison `le` (see `insertLe`). -/
def sortLe (le : α → α → Bool) (l : List α) : List α :=
  l.foldr (insertLe le) []

/-- Search semantics of `re.search(r"\b(\d+)\b", output)` followed by
`int(match.group(1))`: scanning left to right, return the value of the first
maximal digit run that is preceded by a word boundary and followed by a word
boundary.  `prevWord` records whether the character just before the current
position is a word character (`false` at the start of the string). -/
def findVersionNum : List Char → Bool → Option Nat
  | [], _ => none
  | c :: rest, prevWord =>
    if c.isDigit && !prevWord then
      let run := List.takeWhile Char.isDigit (c :: rest)
      match List.dropWhile Char.isDigit (c :: rest) with
      | [] => some (natOfDigits run)
      | d :: _ =>
        if isWordChar d then findVersionNum rest (isWordChar c)
        else some (natOfDigits run)
    else findVersionNum rest (isWordChar c)

/-- Result of one external process, modelling `subprocess.CompletedProcess`
with `capture_output=True, text=True`. -/
structure ProcResult where
  returncode : Int
  stdout : String
  stderr : String
deriving DecidableEq, Repr

/-- Model of `models.Migration` (the scanner only ever constructs values whose
`up_file` is present, so the field is total here; `exceptions` carrying a
`Path` become the file-name string). -/
structure Migration where
  version : Int
  name : String
  up_file : String
  down_file : Option String := none
  timestamp : Option Int := none
deriving DecidableEq, Repr

/-- Model of `models.MigrationResult` (the `error` field is never populated by
the wrapper, so a message string stands in for the exception object). -/
structure MigrationResult where
  success : Bool
  version : Option Int
  message : String
  error : Option String := none
  dirty : Bool := false
deriving DecidableEq, Repr

/-- Model of `models.DatabaseInfo`. -/
structure DatabaseInfo where
  version : Option Int
  dirty : Bool
deriving DecidableEq, Repr

/-- Model of `models.DatabaseInfo.is_clean`. -/
def DatabaseInfo.is_clean (d : DatabaseInfo) : Bool := !d.dirty

/-- Model of `models.MissingDownFile`. -/
structure MissingDownFile where
  version : Int
  name : String
deriving DecidableEq, Repr

/-- Model of `models.ValidationResult`. -/
structure ValidationResult where
  valid : Bool
  total_migrations : Nat
  gaps : List Int
  missing_down_files : List MissingDownFile
deriving DecidableEq, Repr

/-- Exceptions raised by the wrapper (`exceptions.MigrateError` and its
subclass `exceptions.MigrateDirtyError`), carrying their message. -/
inductive MigrateError where
  | migrateError (msg : String)
  | migrateDirtyError (msg : String)
deriving DecidableEq, Repr

/-- Model of `Migration.has_down_file`: the Python method also checks
`down_file.exists()`, but the scanner only stores paths of files it just
enumerated, so on a quiescent directory existence is automatic. -/
def Migration.has_down_file (m : Migration) : Bool := m.down_file.isSome

namespace MigrateCommand

/-- Model of `MigrateCommand.parse_error`: best-effort classification of
stderr by case-insensitive substring, first match wins; otherwise the trimmed
raw stderr, or nothing when stderr is the empty string. -/
def parse_error (stderr : String) : Option String :=
  if containsCI stderr "dirty database" then some "Database is in dirty state"
  else if containsCI stderr "no migration" then some "No migrations found"
  else if containsCI stderr "already at the latest" then some "Already at latest version"
  else if containsCI stderr "file does not exist" then some "Migration file not found"
  else if containsCI stderr "connection refused" then some "Database connection failed"
  else if stderr = "" then none
  else some (String.mk (trimChars stderr.toList))

end MigrateCommand

namespace MigrationScanner

/-- Split off the direction suffix of a migration file name: the regex
`\.(up|down)\.sql$` can only match the literal suffix of the name. -/
def splitDirection (cs : List Char) : Option (List Char × Bool) :=
  if List.isSuffixOf ".up.sql".toList cs then some (cs.take (cs.length - 7), true)
  else if List.isSuffixOf ".down.sql".toList cs then some (cs.take (cs.length - 9), false)
  else none

/-- Model of the scanner's regex `^(\d+)_(.+)\.(up|down)\.sql$` applied to one
file name: the version is the maximal leading digit run (which the regex, by
greediness and the mandatory `_`, forces), the name is everything between the
following `_` and the final direction suffix, and both must be non-empty.
Returns `(version, name, isUp)`. -/
def matchMigrationFile (s : String) : Option (Int × String × Bool) :=
  match splitDirection s.toList with
  | none => none
  | some (base, isUp) =>
    let ds := base.takeWhile Char.isDigit
    match ds, base.dropWhile Char.isDigit with
    | [], _ => none
    | _, [] => none
    | _, c :: nm =>
      if c == '_' && !nm.isEmpty then
        some (Int.ofNat (natOfDigits ds), String.mk nm, isUp)
      else none

/-- Intermediate per-version record built by `scan`, modelling the Python
dict entry `{"version": ..., "name": ..., "up_file": ..., "down_file": ...}`. -/
structure MigEntry where
  version : Int
  name : String
  up_file : Option String
  down_file : Option String
deriving DecidableEq, Repr

/-- One step of the scanning loop body: skip a non-matching file, update the
entry of an already-seen version, or append a fresh entry (the Python dict
preserves insertion order). -/
def insertFile (entries : List MigEntry) (file : String) : List MigEntry :=
  match matchMigrationFile file with
  | none => entries
  | some (v, nm, isUp) =>
    if entries.any (fun e => e.version == v) then
      entries.map (fun e =>
        if e.version == v then
          if isUp then { e with up_file := some file }
          else { e with down_file := some file }
        else e)
    else
      entries ++ [{ version := v, name := nm,
                    up_file := if isUp then some file else none,
                    down_file := if isUp then none else some file }]

/-- Model of `MigrationScanner.scan`: glob `*.sql`, group matching files by
version, drop groups without an up-file, and sort ascending by version. -/
def scan (files : List String) : List Migration :=
  let sqlFiles := files.filter (fun f => List.isSuffixOf ".sql".toList f.toList)
  let entries := sqlFiles.foldl insertFile []
  let migs := entries.filterMap (fun e =>
    match e.up_file with
    | some u =>
      some ({ version := e.version, name := e.name, up_file := u,
              down_file := e.down_file } : Migration)
    | none => none)
  sortLe (fun a b => decide (a.version ≤ b.version)) migs

/-- Model of `MigrationScanner.find_gaps`: empty input gives `[]`; otherwise
every integer of `range(versions[0], versions[-1])` that is not itself a
version, in ascending order. -/
def find_gaps (migrations : List Migration) : List Int :=
  match migrations with
  | [] => []
  | _ :: _ =>
    let versions := sortLe (fun a b => decide (a ≤ b))
      (migrations.map (fun m => m.version))
    let lo := versions.headD 0
    let hi := versions.getLastD 0
    ((List.range (hi - lo).toNat).map (fun k : Nat => lo + (k : Int))).filter
      (fun i => !(versions.contains i))

end MigrationScanner

namespace MigrateWrapper

/-- Output selection shared by `version` and `status`: the stripped stdout,
falling back to the stripped stderr only when stdout strips to empty and
stderr is non-empty. -/
def selectedOutput (res : ProcResult) : List Char :=
  let output := trimChars res.stdout.toList
  if output.isEmpty && res.stderr != "" then trimChars res.stderr.toList
  else output

/-- Model of `MigrateWrapper.version` applied to the result of its `version`
subprocess: on exit code 0, parse `\b(\d+)\b` out of the selected output;
`none` on a non-zero exit or when nothing matches. -/
def version (res : ProcResult) : Option Int :=
  if res.returncode = 0 then
    let output := selectedOutput res
    if output.isEmpty then none
    else (findVersionNum output false).map Int.ofNat
  else none

/-- Model of `MigrateWrapper.status` applied to the result of its `version`
subprocess. -/
def status (res : ProcResult) : DatabaseInfo :=
  if res.returncode = 0 then
    let output := selectedOutput res
    if output.isEmpty then { version := none, dirty := false }
    else
      { version := (findVersionNum output false).map Int.ofNat,
        dirty := hasInfix "dirty".toList (lowerChars output) }
  else { version := none, dirty := false }

/-- Model of `MigrateWrapper.up` post-processing: `res` is the `up`
subprocess result, `vres` the result of the inner `version` subprocess that
the method runs to report the current version. -/
def up (res vres : ProcResult) : Except MigrateError MigrationResult :=
  if res.returncode = 0 then
    .ok { success := true, version := version vres,
          message := "Migrations applied successfully" }
  else
    let error_msg := MigrateCommand.parse_error res.stderr
    let is_dirty := containsCI res.stderr "dirty"
    if is_dirty then
      .error (.migrateDirtyError (orDefault error_msg "Database is in dirty state"))
    else
      .ok { success := false, version := version vres,
            message := orDefault error_msg "Migration failed", dirty := is_dirty }

/-- Model of `MigrateWrapper.down` post-processing (same shape as `up`). -/
def down (res vres : ProcResult) : Except MigrateError MigrationResult :=
  if res.returncode = 0 then
    .ok { success := true, version := version vres,
          message := "Migrations rolled back successfully" }
  else
    let error_msg := MigrateCommand.parse_error res.stderr
    let is_dirty := containsCI res.stderr "dirty"
    if is_dirty then
      .error (.migrateDirtyError (orDefault error_msg "Database is in dirty state"))
    else
      .ok { success := false, version := version vres,
            message := orDefault error_msg "Rollback failed", dirty := is_dirty }

/-- Model of `MigrateWrapper.goto` post-processing for target version `v`. -/
def goto (v : Int) (res vres : ProcResult) : Except MigrateError MigrationResult :=
  if res.returncode = 0 then
    .ok { success := true, version := if v > 0 then some v else none,
          message := "Migrated to version " ++ toString v }
  else
    let error_msg := MigrateCommand.parse_error res.stderr
    let is_dirty := containsCI res.stderr "dirty"
    if is_dirty then
      .error (.migrateDirtyError (orDefault error_msg "Database is in dirty state"))
    else
      .ok { success := false, version := version vres,
            message := orDefault error_msg "Goto failed", dirty := is_dirty }

/-- Model of `MigrateWrapper.force` post-processing for target version `v`:
never raises, and never inspects stderr for dirtiness. -/
def force (v : Int) (res vres : ProcResult) : Except MigrateError MigrationResult :=
  if res.returncode = 0 then
    .ok { success := true, version := if v > 0 then some v else none,
          message := "Forced version to " ++ toString v, dirty := false }
  else
    .ok { success := false, version := version vres,
          message := orDefault (MigrateCommand.parse_error res.stderr) "Force failed" }

/-- Model of `MigrateWrapper.create` post-processing: `res` is the `create`
subprocess result and `files` is the (quiescent) directory content after the
command ran.  Both directory scans of the Python method — the one stored in
`migrations_before` and the one stored in `migrations_after` — run after
`execute`, so both see `files`.  The `sequential` and `extension` arguments
only shape the command line and are unused afterwards. -/
def create (_sequential : Bool) (_extension : String) (res : ProcResult)
    (files : List String) : Except MigrateError Migration :=
  if res.returncode ≠ 0 then
    .error (.migrateError ("Failed to create migration: " ++ res.stderr))
  else
    let migrations_before := (MigrationScanner.scan files).map (fun m => m.version)
    let migrations_after := MigrationScanner.scan files
    match migrations_after.find? (fun m => !(migrations_before.contains m.version)) with
    | some m => .ok m
    | none =>
      match migrations_after.getLast? with
      | some m => .ok m
      | none => .error (.migrateError "Could not find created migration")

/-- Model of `MigrateWrapper.list_migrations`. -/
def list_migrations (files : List String) : List Migration :=
  MigrationScanner.scan files

/-- Model of `MigrateWrapper.validate_migrations`. -/
def validate_migrations (files : List String) : ValidationResult :=
  let migrations := list_migrations files
  let gaps := MigrationScanner.find_gaps migrations
  let missing_down := migrations.filter (fun m => !m.has_down_file)
  { valid := gaps.isEmpty && missing_down.isEmpty,
    total_migrations := migrations.length,
    gaps := gaps,
    missing_down_files := missing_down.map (fun m =>
      { version := m.version, name := m.name }) }

end MigrateWrapper

/-- Value of the first run of digits of a string, read off the specification
sentence "the integer value of the first run of digits found in the output"
literally, with no word-boundary requirement.  Used to compare the spec
sentence with the source's `\b(\d+)\b` search. -/
def firstDigitRun : List Char → Option Nat
  | [] => none
  | c :: rest =>
    if c.isDigit then some (natOfDigits (List.takeWhile Char.isDigit (c :: rest)))
    else firstDigitRun rest

/-- Occurrence of a word-boundary-delimited digit run: within `cs` (where
`prev` says whether a word character immediately precedes `cs`, `false` at
the start of the scanned text), the decomposition `cs = pre ++ run ++ post`
exhibits `run` as a non-empty digit run that no letter, digit or underscore
touches on either side — exactly a `\b(\d+)\b` match site. -/
def BoundedDigitRun (prev : Bool) (cs pre run post : List Char) : Prop :=
  cs = pre ++ run ++ post ∧ run ≠ [] ∧ (∀ c ∈ run, c.isDigit = true) ∧
  (match pre.getLast? with
   | none => prev = false
   | some c => isWordChar c = false) ∧
  (∀ c ∈ post.head?, isWordChar c = false)

/-- Declarative reading of `re.search(r"\b(\d+)\b", ...)`: the outcome `o` is
`none` exactly when no word-boundary-delimited digit run occurs, and `some v`
exactly when `v` is the value of such a run whose start position (length of
`pre`) is least among all of them, i.e. the first match. -/
def VersionParseSpec (prev : Bool) (cs : List Char) : Option Nat → Prop
  | none => ∀ pre run post, ¬ BoundedDigitRun prev cs pre run post
  | some v => ∃ pre run post, BoundedDigitRun prev cs pre run post ∧
      v = natOfDigits run ∧
      ∀ pre2 run2 post2, BoundedDigitRun prev cs pre2 run2 post2 →
        pre.length ≤ pre2.length

/-! ### Bridging lemmas for the executable text predicates -/

theorem hasInfix_iff (needle : List Char) :
    ∀ hay : List Char, hasInfix needle hay = true ↔ needle <:+: hay
  | [] => by simp [hasInfix, List.isEmpty_iff, List.infix_nil]
  | c :: rest => by
    simp [hasInfix, hasInfix_iff needle rest, List.infix_cons_iff,
      List.isPrefixOf_iff_prefix]

theorem containsCI_iff (s needle : String) :
    containsCI s needle = true ↔ needle.toList <:+: lowerChars s.toList :=
  hasInfix_iff _ _

theorem containsCI_eq_false {s needle : String}
    (h : ¬ needle.toList <:+: lowerChars s.toList) : containsCI s needle = false := by
  cases hc : containsCI s needle with
  | false => rfl
  | true => exact absurd ((containsCI_iff s needle).mp hc) h

/-! ### Helper lemmas: results actually returned by `up`/`down`/`goto` -/

theorem up_ok_dirty_false {res vres : ProcResult} {r : MigrationResult}
    (h : MigrateWrapper.up res vres = Except.ok r) : r.dirty = false := by
  unfold MigrateWrapper.up at h
  split at h
  · cases h
    rfl
  · dsimp only at h
    split at h
    · cases h
    · next hdirty =>
      cases h
      simpa using hdirty

theorem down_ok_dirty_false {res vres : ProcResult} {r : MigrationResult}
    (h : MigrateWrapper.down res vres = Except.ok r) : r.dirty = false := by
  unfold MigrateWrapper.down at h
  split at h
  · cases h
    rfl
  · dsimp only at h
    split at h
    · cases h
    · next hdirty =>
      cases h
      simpa using hdirty

theorem goto_ok_dirty_false {v : Int} {res vres : ProcResult} {r : MigrationResult}
    (h : MigrateWrapper.goto v res vres = Except.ok r) : r.dirty = false := by
  unfold MigrateWrapper.goto at h
  split at h
  · cases h
    rfl
  · dsimp only at h
    split at h
    · cases h
    · next hdirty =>
      cases h
      simpa using hdirty

/-! ### Claim theorems -/

/-- C2 (counterexample): as stated, the claim quantifies over *every* process
result whose stderr contains "dirty", but when the `up` process exits with
code 0 the code never looks at stderr: here stderr contains "dirty"
case-insensitively, yet `up` returns a successful `MigrationResult` instead of
raising `MigrateDirtyError`. -/
theorem spec2_C2_counterexample :
    ("dirty".toList <:+: lowerChars "error: Dirty database version".toList) ∧
    MigrateWrapper.up ⟨0, "", "error: Dirty database version"⟩ ⟨0, "1", ""⟩ =
      Except.ok { success := true, version := some 1,
                  message := "Migrations applied successfully" } :=
  ⟨by decide, rfl⟩

/-- C2 (amended): for every invocation of `up`, `down`, or `goto` whose
external process exits non-zero and whose stderr text contains "dirty"
(case-insensitive), the operation raises `MigrateDirtyError` instead of
returning a failed `MigrationResult`, regardless of which of the three
operations was called. -/
theorem spec2_C2_amended (res vres : ProcResult) (v : Int)
    (hrc : res.returncode ≠ 0)
    (hdirty : "dirty".toList <:+: lowerChars res.stderr.toList) :
    (∃ m, MigrateWrapper.up res vres =
      Except.error (MigrateError.migrateDirtyError m)) ∧
    (∃ m, MigrateWrapper.down res vres =
      Except.error (MigrateError.migrateDirtyError m)) ∧
    (∃ m, MigrateWrapper.goto v res vres =
      Except.error (MigrateError.migrateDirtyError m)) := by
  have hd : containsCI res.stderr "dirty" = true := (containsCI_iff _ _).mpr hdirty
  refine ⟨⟨orDefault (MigrateCommand.parse_error res.stderr) "Database is in dirty state", ?_⟩,
          ⟨orDefault (MigrateCommand.parse_error res.stderr) "Database is in dirty state", ?_⟩,
          ⟨orDefault (MigrateCommand.parse_error res.stderr) "Database is in dirty state", ?_⟩⟩
  · simp [MigrateWrapper.up, hrc, hd]
  · simp [MigrateWrapper.down, hrc, hd]
  · simp [MigrateWrapper.goto, hrc, hd]

/-- C2 (witness): the amended theorem applied to a concrete dirty failure. -/
theorem spec2_C2_witness :
    ((1 : Int) ≠ 0) ∧
    ("dirty".toList <:+: lowerChars "error: Dirty database version 2".toList) ∧
    ∃ m, MigrateWrapper.up ⟨1, "", "error: Dirty database version 2"⟩ ⟨0, "1", ""⟩ =
      Except.error (MigrateError.migrateDirtyError m) :=
  ⟨by decide, by decide,
   (spec2_C2_amended ⟨1, "", "error: Dirty database version 2"⟩ ⟨0, "1", ""⟩ 0
     (by decide) (by decide)).1⟩

/-- C8: `force` never raises the dirty-state error condition, for every
process outcome including stderr that indicates a dirty database; and every
successful force (exit code 0) returns a `MigrationResult` with
`dirty = false`, `version` = the requested version if it is greater than 0
else `none`, and message "Forced version to N". -/
theorem spec2_C8 (v : Int) (res vres : ProcResult) :
    (∀ m, MigrateWrapper.force v res vres ≠
      Except.error (MigrateError.migrateDirtyError m)) ∧
    (res.returncode = 0 → MigrateWrapper.force v res vres =
      Except.ok { success := true, version := if v > 0 then some v else none,
                  message := "Forced version to " ++ toString v, error := none,
                  dirty := false }) := by
  constructor
  · intro m
    unfold MigrateWrapper.force
    split <;> simp
  · intro h
    simp [MigrateWrapper.force, h]

/-- C8 (witness): a successful concrete `force 3`, with dirty stderr present. -/
theorem spec2_C8_witness :
    MigrateWrapper.force 3 ⟨0, "", "Dirty database"⟩ ⟨0, "", ""⟩ =
      Except.ok { success := true, version := if (3 : Int) > 0 then some 3 else none,
                  message := "Forced version to " ++ toString (3 : Int), error := none,
                  dirty := false } :=
  (spec2_C8 3 ⟨0, "", "Dirty database"⟩ ⟨0, "", ""⟩).2 rfl

/-- C9: `parse_error` classifies stderr by case-insensitive substring match in
priority order with the first match winning — "dirty database" before
"no migration" before "already at the latest" before "file does not exist"
before "connection refused" — and when none match it returns the trimmed raw
stderr text, or nothing when stderr was empty. -/
theorem spec2_C9 (s : String) :
    ("dirty database".toList <:+: lowerChars s.toList →
      MigrateCommand.parse_error s = some "Database is in dirty state") ∧
    (¬("dirty database".toList <:+: lowerChars s.toList) →
      "no migration".toList <:+: lowerChars s.toList →
      MigrateCommand.parse_error s = some "No migrations found") ∧
    (¬("dirty database".toList <:+: lowerChars s.toList) →
      ¬("no migration".toList <:+: lowerChars s.toList) →
      "already at the latest".toList <:+: lowerChars s.toList →
      MigrateCommand.parse_error s = some "Already at latest version") ∧
    (¬("dirty database".toList <:+: lowerChars s.toList) →
      ¬("no migration".toList <:+: lowerChars s.toList) →
      ¬("already at the latest".toList <:+: lowerChars s.toList) →
      "file does not exist".toList <:+: lowerChars s.toList →
      MigrateCommand.parse_error s = some "Migration file not found") ∧
    (¬("dirty database".toList <:+: lowerChars s.toList) →
      ¬("no migration".toList <:+: lowerChars s.toList) →
      ¬("already at the latest".toList <:+: lowerChars s.toList) →
      ¬("file does not exist".toList <:+: lowerChars s.toList) →
      "connection refused".toList <:+: lowerChars s.toList →
      MigrateCommand.parse_error s = some "Database connection failed") ∧
    (¬("dirty database".toList <:+: lowerChars s.toList) →
      ¬("no migration".toList <:+: lowerChars s.toList) →
      ¬("already at the latest".toList <:+: lowerChars s.toList) →
      ¬("file does not exist".toList <:+: lowerChars s.toList) →
      ¬("connection refused".toList <:+: lowerChars s.toList) →
      MigrateCommand.parse_error s =
        if s = "" then none else some (String.mk (trimChars s.toList))) := by
  refine ⟨fun h1 => ?_, fun h1 h2 => ?_, fun h1 h2 h3 => ?_,
          fun h1 h2 h3 h4 => ?_, fun h1 h2 h3 h4 h5 => ?_,
          fun h1 h2 h3 h4 h5 => ?_⟩
  · simp [MigrateCommand.parse_error, (containsCI_iff s _).mpr h1]
  · simp [MigrateCommand.parse_error, containsCI_eq_false h1,
      (containsCI_iff s _).mpr h2]
  · simp [MigrateCommand.parse_error, containsCI_eq_false h1,
      containsCI_eq_false h2, (containsCI_iff s _).mpr h3]
  · simp [MigrateCommand.parse_error, containsCI_eq_false h1,
      containsCI_eq_false h2, containsCI_eq_false h3,
      (containsCI_iff s _).mpr h4]
  · simp [MigrateCommand.parse_error, containsCI_eq_false h1,
      containsCI_eq_false h2, containsCI_eq_false h3, containsCI_eq_false h4,
      (containsCI_iff s _).mpr h5]
  · simp [MigrateCommand.parse_error, containsCI_eq_false h1,
      containsCI_eq_false h2, containsCI_eq_false h3, containsCI_eq_false h4,
      containsCI_eq_false h5]

/-- C9 (witness): two classifications, one matching the top priority and one
matching the second after the first fails. -/
theorem spec2_C9_witness :
    MigrateCommand.parse_error "Error: DIRTY Database version 2" =
      some "Database is in dirty state" ∧
    MigrateCommand.parse_error "no Migration found" = some "No migrations found" :=
  ⟨(spec2_C9 "Error: DIRTY Database version 2").1 (by decide),
   (spec2_C9 "no Migration found").2.1 (by decide) (by decide)⟩

/-- C10: every `MigrationResult` that `up`, `down`, or `goto` actually returns
to the caller (as opposed to raising) has `dirty = false`: on the success path
the flag is left at its default `false`, and on the failure path the result is
only constructed after the dirty check has ruled out a dirty stderr. -/
theorem spec2_C10 (res vres : ProcResult) (v : Int) (r : MigrationResult)
    (h : MigrateWrapper.up res vres = Except.ok r ∨
         MigrateWrapper.down res vres = Except.ok r ∨
         MigrateWrapper.goto v res vres = Except.ok r) :
    r.dirty = false := by
  rcases h with h | h | h
  · exact up_ok_dirty_false h
  · exact down_ok_dirty_false h
  · exact goto_ok_dirty_false h

/-- C10 (witness): a concrete returned failure result of `down` (non-dirty
stderr) has `dirty = false`. -/
theorem spec2_C10_witness :
    ({ success := false, version := some 1, message := "no change",
       error := none, dirty := false } : MigrationResult).dirty = false :=
  spec2_C10 ⟨1, "", "no change"⟩ ⟨0, "1", ""⟩ 0 _ (Or.inr (Or.inl rfl))

/-! ### Lemmas about the insertion sort `sortLe` -/

theorem mem_insertLe {le : α → α → Bool} {a x : α} :
    ∀ {l : List α}, x ∈ insertLe le a l ↔ x = a ∨ x ∈ l
  | [] => by simp [insertLe]
  | b :: l => by
    by_cases h : le a b = true
    · simp [insertLe, h]
    · simp only [insertLe, if_neg h, List.mem_cons, @mem_insertLe _ le a x l]
      tauto

theorem mem_sortLe {le : α → α → Bool} {x : α} :
    ∀ {l : List α}, x ∈ sortLe le l ↔ x ∈ l
  | [] => Iff.rfl
  | b :: l => by
    show x ∈ insertLe le b (sortLe le l) ↔ _
    rw [mem_insertLe]
    simp [@mem_sortLe _ le x l]

theorem pairwise_insertLe {le : α → α → Bool}
    (htrans : ∀ a b c, le a b = true → le b c = true → le a c = true)
    (htot : ∀ a b, le a b = false → le b a = true) (a : α) :
    ∀ {l : List α}, l.Pairwise (fun x y => le x y = true) →
      (insertLe le a l).Pairwise (fun x y => le x y = true)
  | [], _ => by simp [insertLe]
  | b :: l, h => by
    rcases List.pairwise_cons.mp h with ⟨hb, hl⟩
    by_cases hab : le a b = true
    · simp only [insertLe, if_pos hab]
      refine List.pairwise_cons.mpr ⟨?_, h⟩
      intro y hy
      rcases List.mem_cons.mp hy with rfl | hy
      · exact hab
      · exact htrans a b y hab (hb y hy)
    · simp only [insertLe, if_neg hab]
      refine List.pairwise_cons.mpr ⟨?_, pairwise_insertLe htrans htot a hl⟩
      intro y hy
      rcases mem_insertLe.mp hy with rfl | hy
      · exact htot _ _ (Bool.eq_false_iff.mpr hab)
      · exact hb y hy

theorem pairwise_sortLe {le : α → α → Bool}
    (htrans : ∀ a b c, le a b = true → le b c = true → le a c = true)
    (htot : ∀ a b, le a b = false → le b a = true) :
    ∀ l : List α, (sortLe le l).Pairwise (fun x y => le x y = true)
  | [] => List.Pairwise.nil
  | b :: l => pairwise_insertLe htrans htot b (pairwise_sortLe htrans htot l)

theorem headD_mem {l : List α} (h : l ≠ []) (d : α) : l.headD d ∈ l := by
  cases l with
  | nil => exact absurd rfl h
  | cons a t => simp

theorem getLastD_mem : ∀ {l : List α}, l ≠ [] → ∀ d : α, l.getLastD d ∈ l
  | [], h, _ => absurd rfl h
  | [a], _, d => by simp
  | a :: b :: l, _, d => by
    rw [show (a :: b :: l).getLastD d = (b :: l).getLastD a from List.getLastD_cons d a (b :: l)]
    exact List.mem_cons_of_mem a (getLastD_mem (by simp) a)

theorem sorted_headD_le {l : List Int} (h : l.Pairwise (fun x y : Int => x ≤ y))
    {x : Int} (hx : x ∈ l) (d : Int) : l.headD d ≤ x := by
  cases l with
  | nil => cases hx
  | cons a t =>
    rcases List.mem_cons.mp hx with rfl | hx
    · simp
    · simpa using (List.pairwise_cons.mp h).1 x hx

theorem sorted_le_getLastD : ∀ {l : List Int},
    l.Pairwise (fun x y : Int => x ≤ y) →
    ∀ {x : Int}, x ∈ l → ∀ d : Int, x ≤ l.getLastD d
  | [], _, x, hx, _ => absurd hx (List.not_mem_nil x)
  | [a], _, x, hx, d => by
    simp only [List.mem_singleton] at hx
    simp [hx]
  | a :: b :: l, h, x, hx, d => by
    rw [show (a :: b :: l).getLastD d = (b :: l).getLastD a from List.getLastD_cons d a (b :: l)]
    rcases List.mem_cons.mp hx with rfl | hx
    · exact (List.pairwise_cons.mp h).1 _ (getLastD_mem (by simp) _)
    · exact sorted_le_getLastD (List.pairwise_cons.mp h).2 hx a

/-- Transitivity of the boolean comparison used for version sorting. -/
theorem decideLe_trans : ∀ a b c : Int,
    decide (a ≤ b) = true → decide (b ≤ c) = true → decide (a ≤ c) = true := by
  intro a b c hab hbc
  simp only [decide_eq_true_eq] at *
  omega

/-- Totality of the boolean comparison used for version sorting. -/
theorem decideLe_total : ∀ a b : Int,
    decide (a ≤ b) = false → decide (b ≤ a) = true := by
  intro a b h
  simp only [decide_eq_false_iff_not, decide_eq_true_eq] at *
  omega

/-- C5: `find_gaps` returns exactly the integers strictly inside the observed
version span that have no corresponding unit ("strictly inside" is phrased as
"some version below and some version above"), in strictly ascending order; it
returns `[]` for an empty or contiguous list, `[2]` for versions `{1,3}` and
`[]` for the singleton `{5}`. -/
theorem spec2_C5 (ms : List Migration) :
    (∀ i : Int, i ∈ MigrationScanner.find_gaps ms ↔
      (∃ m ∈ ms, m.version < i) ∧ (∃ m ∈ ms, i < m.version) ∧
      ∀ m ∈ ms, m.version ≠ i) ∧
    (MigrationScanner.find_gaps ms).Pairwise (fun a b : Int => a < b) ∧
    MigrationScanner.find_gaps [] = [] ∧
    MigrationScanner.find_gaps
      [{ version := 1, name := "a", up_file := "000001_a.up.sql" },
       { version := 3, name := "b", up_file := "000003_b.up.sql" }] = [2] ∧
    MigrationScanner.find_gaps
      [{ version := 5, name := "a", up_file := "000005_a.up.sql" }] = [] ∧
    MigrationScanner.find_gaps
      [{ version := 1, name := "a", up_file := "1_a.up.sql" },
       { version := 2, name := "b", up_file := "2_b.up.sql" },
       { version := 3, name := "c", up_file := "3_c.up.sql" }] = [] := by
  refine ⟨?_, ?_, rfl, by decide, by decide, by decide⟩
  · intro i
    cases ms with
    | nil => simp [MigrationScanner.find_gaps]
    | cons m0 rest =>
      unfold MigrationScanner.find_gaps
      dsimp only
      have hsorted : (sortLe (fun a b : Int => decide (a ≤ b))
          ((m0 :: rest).map (fun m => m.version))).Pairwise
            (fun x y : Int => x ≤ y) :=
        (pairwise_sortLe decideLe_trans decideLe_total _).imp
          (fun h => of_decide_eq_true h)
      set versions := sortLe (fun a b : Int => decide (a ≤ b))
        ((m0 :: rest).map (fun m => m.version)) with hver
      have hvmem : ∀ x : Int, x ∈ versions ↔ ∃ m ∈ m0 :: rest, m.version = x := by
        intro x
        rw [hver, mem_sortLe, List.mem_map]
      have hvne : versions ≠ [] := by
        intro hnil
        have := (hvmem m0.version).mpr ⟨m0, by simp, rfl⟩
        rw [hnil] at this
        cases this
      have hlo_mem : versions.headD 0 ∈ versions := headD_mem hvne 0
      have hhi_mem : versions.getLastD 0 ∈ versions := getLastD_mem hvne 0
      have hlo_min : ∀ x ∈ versions, versions.headD 0 ≤ x :=
        fun x hx => sorted_headD_le hsorted hx 0
      have hhi_max : ∀ x ∈ versions, x ≤ versions.getLastD 0 :=
        fun x hx => sorted_le_getLastD hsorted hx 0
      have hcast : ((versions.getLastD 0 - versions.headD 0).toNat : Int) =
          versions.getLastD 0 - versions.headD 0 :=
        Int.toNat_of_nonneg (by have := hlo_min _ hhi_mem; omega)
      have hcont : ∀ j : Int, ((!versions.contains j) = true) ↔ j ∉ versions := by
        intro j
        constructor
        · intro h hmem
          have hc : versions.contains j = true := List.elem_iff.mpr hmem
          rw [hc] at h
          simp at h
        · intro h
          cases hc : versions.contains j with
          | false => rfl
          | true => exact absurd (List.elem_iff.mp hc) h
      rw [List.mem_filter]
      simp only [List.mem_map, List.mem_range]
      constructor
      · rintro ⟨⟨k, hk, hki⟩, hp⟩
        have hnotin : i ∉ versions := (hcont i).mp hp
        have hkcast : (k : Int) < ((versions.getLastD 0 - versions.headD 0).toNat : Int) := by
          exact_mod_cast hk
        have hloi : versions.headD 0 ≤ i := by omega
        have hihi : i < versions.getLastD 0 := by omega
        have hlo_lt : versions.headD 0 < i := by
          rcases eq_or_lt_of_le hloi with heq | hlt
          · exact absurd (heq ▸ hlo_mem) hnotin
          · exact hlt
        obtain ⟨mb, hmb, hmbv⟩ := (hvmem _).mp hlo_mem
        obtain ⟨ma, hma, hmav⟩ := (hvmem _).mp hhi_mem
        exact ⟨⟨mb, hmb, by omega⟩, ⟨ma, hma, by omega⟩,
          fun m hm hmv => hnotin ((hvmem i).mpr ⟨m, hm, hmv⟩)⟩
      · rintro ⟨⟨mb, hmb, hmbv⟩, ⟨ma, hma, hmav⟩, hne⟩
        have hnotin : i ∉ versions := by
          intro hmem
          obtain ⟨m, hm, hmv⟩ := (hvmem i).mp hmem
          exact hne m hm hmv
        have hlob : versions.headD 0 ≤ mb.version :=
          hlo_min _ ((hvmem _).mpr ⟨mb, hmb, rfl⟩)
        have hhia : ma.version ≤ versions.getLastD 0 :=
          hhi_max _ ((hvmem _).mpr ⟨ma, hma, rfl⟩)
        refine ⟨⟨(i - versions.headD 0).toNat, by omega, by omega⟩, (hcont i).mpr hnotin⟩
  · cases ms with
    | nil => exact List.Pairwise.nil
    | cons m0 rest =>
      unfold MigrationScanner.find_gaps
      dsimp only
      refine List.Pairwise.sublist (List.filter_sublist _) ?_
      refine List.Pairwise.map _ ?_ (List.pairwise_lt_range _)
      intro a b hab
      omega

/-! ### Scanner invariants (C6, C7) -/

/-- Invariant carried through the scanning fold: every recorded up/down path
is one of the enumerated files and matches the pattern with that entry's
version and the right direction. -/
def EntryOk (S : List String) (e : MigrationScanner.MigEntry) : Prop :=
  (∀ f, e.up_file = some f → f ∈ S ∧
    ∃ nm, MigrationScanner.matchMigrationFile f = some (e.version, nm, true)) ∧
  (∀ f, e.down_file = some f → f ∈ S ∧
    ∃ nm, MigrationScanner.matchMigrationFile f = some (e.version, nm, false))

theorem insertFile_ok {S : List String} {acc : List MigrationScanner.MigEntry}
    {f : String} (hacc : ∀ e ∈ acc, EntryOk S e) (hf : f ∈ S) :
    ∀ e ∈ MigrationScanner.insertFile acc f, EntryOk S e := by
  intro e he
  unfold MigrationScanner.insertFile at he
  cases hm : MigrationScanner.matchMigrationFile f with
  | none =>
    rw [hm] at he
    exact hacc e he
  | some t =>
    obtain ⟨v, nm, isUp⟩ := t
    rw [hm] at he
    dsimp only at he
    split at he
    · rcases List.mem_map.mp he with ⟨e0, he0, rfl⟩
      have hok0 := hacc e0 he0
      by_cases hv : (e0.version == v) = true
      · have hveq : e0.version = v := by simpa using hv
        rw [if_pos hv]
        cases isUp with
        | true =>
          rw [if_pos rfl]
          refine ⟨?_, ?_⟩
          · intro g hg
            simp only [MigrationScanner.MigEntry.mk.injEq] at hg
            have hfg : some f = some g := hg
            cases hfg
            refine ⟨hf, nm, ?_⟩
            dsimp only
            rw [hveq]
            exact hm
          · intro g hg
            exact hok0.2 g hg
        | false =>
          rw [if_neg (by simp)]
          refine ⟨?_, ?_⟩
          · intro g hg
            exact hok0.1 g hg
          · intro g hg
            have hfg : some f = some g := hg
            cases hfg
            refine ⟨hf, nm, ?_⟩
            dsimp only
            rw [hveq]
            exact hm
      · rw [if_neg hv]
        exact hok0
    · rcases List.mem_append.mp he with he0 | hnew
      · exact hacc e he0
      · have hnew2 := List.mem_singleton.mp hnew
        subst hnew2
        cases isUp with
        | true =>
          refine ⟨?_, ?_⟩
          · intro g hg
            simp only [if_pos rfl] at hg
            have hfg : some f = some g := hg
            cases hfg
            exact ⟨hf, nm, hm⟩
          · intro g hg
            simp at hg
        | false =>
          refine ⟨?_, ?_⟩
          · intro g hg
            simp at hg
          · intro g hg
            simp only [if_neg (by simp : ¬(false = true))] at hg
            have hfg : some f = some g := hg
            cases hfg
            exact ⟨hf, nm, hm⟩

theorem foldl_insertFile_ok {S : List String} :
    ∀ (L : List String) (acc : List MigrationScanner.MigEntry),
      (∀ e ∈ acc, EntryOk S e) → (∀ f ∈ L, f ∈ S) →
      ∀ e ∈ L.foldl MigrationScanner.insertFile acc, EntryOk S e
  | [], _, hacc, _ => hacc
  | f :: L, acc, hacc, hL => by
    intro e he
    exact foldl_insertFile_ok L _ (insertFile_ok hacc (hL f (by simp)))
      (fun g hg => hL g (by simp [hg])) e he

theorem scan_up_file_ok (files : List String) :
    ∀ m ∈ MigrationScanner.scan files,
      m.up_file ∈ files ∧ ∃ nm, MigrationScanner.matchMigrationFile m.up_file =
        some (m.version, nm, true) := by
  intro m hm
  unfold MigrationScanner.scan at hm
  dsimp only at hm
  rw [mem_sortLe] at hm
  rcases List.mem_filterMap.mp hm with ⟨e, he, hme⟩
  have hok := @foldl_insertFile_ok files
    (files.filter (fun f => List.isSuffixOf ".sql".toList f.toList)) []
    (by intro e he; cases he)
    (fun f hf => (List.mem_filter.mp hf).1) e he
  cases hu : e.up_file with
  | none =>
    rw [hu] at hme
    cases hme
  | some u =>
    rw [hu] at hme
    dsimp only at hme
    cases hme
    exact hok.1 u hu

theorem scan_sorted (files : List String) :
    (MigrationScanner.scan files).Pairwise
      (fun a b : Migration => a.version ≤ b.version) := by
  unfold MigrationScanner.scan
  dsimp only
  have h := @pairwise_sortLe Migration
    (fun a b : Migration => decide (a.version ≤ b.version))
    (by intro a b c hab hbc; simp only [decide_eq_true_eq] at *; omega)
    (by intro a b hab; simp only [decide_eq_false_iff_not, decide_eq_true_eq] at *; omega)
  exact (h _).imp (fun hx => of_decide_eq_true hx)

theorem scan_skip {f : String} (hf : MigrationScanner.matchMigrationFile f = none)
    (files : List String) :
    MigrationScanner.scan (f :: files) = MigrationScanner.scan files := by
  unfold MigrationScanner.scan
  dsimp only
  rw [List.filter_cons]
  split
  · have h0 : MigrationScanner.insertFile [] f = [] := by
      unfold MigrationScanner.insertFile
      rw [hf]
    rw [List.foldl_cons, h0]
  · rfl

/-- C6: every `Migration` returned by the scanner's `scan` has an up-file
(it is one of the directory's files and matches the pattern as an up-file
with the unit's version — so versions for which only a down-file matched can
never appear); the returned list is sorted ascending by version; and files
not matching the pattern are silently skipped. -/
theorem spec2_C6 (files : List String) :
    (∀ m ∈ MigrationScanner.scan files,
      m.up_file ∈ files ∧ ∃ nm, MigrationScanner.matchMigrationFile m.up_file =
        some (m.version, nm, true)) ∧
    (MigrationScanner.scan files).Pairwise
      (fun a b : Migration => a.version ≤ b.version) ∧
    (∀ f, MigrationScanner.matchMigrationFile f = none →
      MigrationScanner.scan (f :: files) = MigrationScanner.scan files) :=
  ⟨scan_up_file_ok files, scan_sorted files, fun _ hf => scan_skip hf files⟩

/-- C6 (witness): the theorem instantiated on a concrete directory containing
a stray file, an orphan down-file and one proper pair. -/
theorem spec2_C6_witness :
    ("000001_first.up.sql" ∈
        ["junk.txt", "000002_b.down.sql", "000001_first.up.sql"] ∧
      ∃ nm, MigrationScanner.matchMigrationFile "000001_first.up.sql" =
        some (1, nm, true)) ∧
    MigrationScanner.scan
        ("readme.md" :: ["junk.txt", "000002_b.down.sql", "000001_first.up.sql"]) =
      MigrationScanner.scan ["junk.txt", "000002_b.down.sql", "000001_first.up.sql"] :=
  ⟨(spec2_C6 ["junk.txt", "000002_b.down.sql", "000001_first.up.sql"]).1
      { version := 1, name := "first", up_file := "000001_first.up.sql" }
      (by decide),
   (spec2_C6 ["junk.txt", "000002_b.down.sql", "000001_first.up.sql"]).2.2
      "readme.md" (by decide)⟩

/-- C7: `validate_migrations` returns a result that is valid exactly when
there are no gaps and every scanned unit also has a down-file (every unit's
up-file is structural: the scanner never emits a unit without one, see C6);
the spec's concrete scenario with versions 1 and 3 evaluates as stated. -/
theorem spec2_C7 (files : List String) :
    ((MigrateWrapper.validate_migrations files).valid = true ↔
      (MigrateWrapper.validate_migrations files).gaps = [] ∧
      ∀ m ∈ MigrationScanner.scan files, m.has_down_file = true) ∧
    MigrateWrapper.validate_migrations
        ["000001_first.up.sql", "000001_first.down.sql",
         "000003_third.up.sql", "000003_third.down.sql"] =
      { valid := false, total_migrations := 2, gaps := [2],
        missing_down_files := [] } := by
  constructor
  · simp only [MigrateWrapper.validate_migrations, MigrateWrapper.list_migrations]
    rw [Bool.and_eq_true, List.isEmpty_iff, List.isEmpty_iff,
      List.filter_eq_nil_iff]
    constructor
    · rintro ⟨h1, h2⟩
      exact ⟨h1, fun m hm => by simpa using h2 m hm⟩
    · rintro ⟨h1, h2⟩
      exact ⟨h1, fun m hm => by simp [h2 m hm]⟩
  · decide

/-- C4: for every process result, `status` returns a `DatabaseInfo` whose
version is parsed exactly as `version` parses it, and whose dirty flag is
true iff the examined stdout/stderr text contains "dirty" case-insensitively
(the examined text being the stripped stdout, falling back to the stripped
stderr per the output-source precedence the spec states for `version` and
`status`); a non-zero exit yields version=none and dirty=false.  The spec's
two concrete `status` examples evaluate as stated. -/
theorem spec2_C4 (res : ProcResult) :
    (MigrateWrapper.status res).version = MigrateWrapper.version res ∧
    (res.returncode = 0 →
      ((MigrateWrapper.status res).dirty = true ↔
        "dirty".toList <:+: lowerChars (MigrateWrapper.selectedOutput res))) ∧
    (res.returncode ≠ 0 →
      MigrateWrapper.status res = { version := none, dirty := false }) ∧
    MigrateWrapper.status ⟨0, "version: 3 (dirty)\n", ""⟩ =
      { version := some 3, dirty := true } ∧
    (MigrateWrapper.status ⟨0, "version: 3 (dirty)\n", ""⟩).is_clean = false ∧
    MigrateWrapper.status ⟨0, "no migration\n", ""⟩ =
      { version := none, dirty := false } := by
  refine ⟨?_, ?_, ?_, by decide, by decide, by decide⟩
  · by_cases h : res.returncode = 0
    · simp only [MigrateWrapper.status, MigrateWrapper.version, if_pos h]
      by_cases ho : (MigrateWrapper.selectedOutput res).isEmpty
      · simp [ho]
      · simp [ho]
    · simp [MigrateWrapper.status, MigrateWrapper.version, h]
  · intro h
    simp only [MigrateWrapper.status, if_pos h]
    by_cases ho : (MigrateWrapper.selectedOutput res).isEmpty
    · rw [List.isEmpty_iff] at ho
      simp only [ho, List.isEmpty_nil, if_pos rfl]
      simp [lowerChars, List.infix_nil]
    · simp only [if_neg ho]
      exact hasInfix_iff _ _
  · intro h
    simp [MigrateWrapper.status, h]

/-- C4 (witness): a concrete dirty status report. -/
theorem spec2_C4_witness :
    (MigrateWrapper.status ⟨0, "1 (dirty)", ""⟩).dirty = true :=
  ((spec2_C4 ⟨0, "1 (dirty)", ""⟩).2.1 rfl).mpr (by decide)

/-- C1 (code evaluation at the failing input): `create` with
`sequential = false` and extension `"txt"`, on a directory that already held
exactly the version-1 pair before the command and in which the exit-0 command
created two `.txt` files the scanner's `*.sql` pattern never matches.  No
unit's version is new relative to a pre-command scan (both scans see only
version 1), and `sequential` is false, so the claim requires the not-found
creation error; the code instead returns the pre-existing version-1 unit:
both of its directory scans run *after* the external command (so the
"newly created migration" search of its `migrations_before`/`migrations_after`
comparison can never succeed on a quiescent directory), and the latest-unit
fallback annotated "# If sequential, return the latest migration" is taken
unconditionally. -/
theorem spec2_C1_code_eval :
    MigrateWrapper.create false "txt" ⟨0, "", ""⟩
      ["000001_a.up.sql", "000001_a.down.sql",
       "20240101120000_b.up.txt", "20240101120000_b.down.txt"] =
    Except.ok { version := 1, name := "a", up_file := "000001_a.up.sql",
                down_file := some "000001_a.down.sql" } := rfl

/-! ### Characterisation of the `\b(\d+)\b` search (C3) -/

theorem isDigit_isWordChar {c : Char} (h : Char.isDigit c = true) :
    isWordChar c = true := by
  simp [isWordChar, Char.isAlphanum, h]

theorem takeWhile_append_all {p : α → Bool} :
    ∀ {run : List α} (post : List α), (∀ c ∈ run, p c = true) →
      List.takeWhile p (run ++ post) = run ++ List.takeWhile p post
  | [], _, _ => rfl
  | c :: run, post, h => by
    have hc : p c = true := h c (by simp)
    rw [List.cons_append, List.takeWhile_cons, hc]
    simp only [if_true]
    rw [takeWhile_append_all post (fun x hx => h x (by simp [hx]))]
    rfl

theorem dropWhile_append_all {p : α → Bool} :
    ∀ {run : List α} (post : List α), (∀ c ∈ run, p c = true) →
      List.dropWhile p (run ++ post) = List.dropWhile p post
  | [], _, _ => rfl
  | c :: run, post, h => by
    have hc : p c = true := h c (by simp)
    rw [List.cons_append, List.dropWhile_cons, hc]
    simp only [if_true]
    exact dropWhile_append_all post (fun x hx => h x (by simp [hx]))

/-- A non-empty all-digit run followed by a non-word (hence non-digit)
character is forced to be the maximal digit prefix. -/
theorem run_forced {l run post : List Char}
    (heq : l = run ++ post) (_hne : run ≠ [])
    (hdig : ∀ c ∈ run, Char.isDigit c = true)
    (hpost : ∀ c ∈ post.head?, isWordChar c = false) :
    run = List.takeWhile Char.isDigit l ∧ post = List.dropWhile Char.isDigit l := by
  subst heq
  have hsplit : List.takeWhile Char.isDigit post = [] ∧
      List.dropWhile Char.isDigit post = post := by
    cases post with
    | nil => exact ⟨rfl, rfl⟩
    | cons d ds =>
      have hw : isWordChar d = false := hpost d rfl
      have hd : Char.isDigit d = false := by
        cases hdd : Char.isDigit d
        · rfl
        · rw [isDigit_isWordChar hdd] at hw
          cases hw
      rw [List.takeWhile_cons, List.dropWhile_cons, hd]
      exact ⟨by simp, by simp⟩
  exact ⟨by rw [takeWhile_append_all post hdig, hsplit.1, List.append_nil],
         by rw [dropWhile_append_all post hdig, hsplit.2]⟩

theorem no_bounded_head_not_start {c : Char} {rest : List Char} {prev : Bool}
    (h : (Char.isDigit c && !prev) = false) :
    ∀ run post, ¬ BoundedDigitRun prev (c :: rest) [] run post := by
  intro run post hb
  obtain ⟨heq, hne, hdig, hpre, _⟩ := hb
  have hprev : prev = false := hpre
  cases run with
  | nil => exact hne rfl
  | cons r rs =>
    have hcr : c = r := by simpa using congrArg List.head? heq
    have hc : Char.isDigit c = true := by
      rw [hcr]
      exact hdig r (by simp)
    rw [hc, hprev] at h
    cases h

theorem no_bounded_head_word_after {c d : Char} {rest ds : List Char} {prev : Bool}
    (hdrop : List.dropWhile Char.isDigit (c :: rest) = d :: ds)
    (hw : isWordChar d = true) :
    ∀ run post, ¬ BoundedDigitRun prev (c :: rest) [] run post := by
  intro run post hb
  obtain ⟨heq, hne, hdig, _, hpost⟩ := hb
  obtain ⟨_, hpost2⟩ := run_forced (by simpa using heq) hne hdig hpost
  have hpd : post = d :: ds := hpost2.trans hdrop
  have hcontra : isWordChar d = false := hpost d (by rw [hpd]; rfl)
  rw [hw] at hcontra
  cases hcontra

theorem boundedDigitRun_cons {c : Char} {cs pre run post : List Char}
    {prev : Bool} :
    BoundedDigitRun prev (c :: cs) (c :: pre) run post ↔
    BoundedDigitRun (isWordChar c) cs pre run post := by
  constructor
  · rintro ⟨heq, hne, hdig, hpre, hpost⟩
    refine ⟨by simpa using heq, hne, hdig, ?_, hpost⟩
    cases pre with
    | nil => exact hpre
    | cons p ps =>
      rw [List.getLast?_cons_cons] at hpre
      exact hpre
  · rintro ⟨heq, hne, hdig, hpre, hpost⟩
    refine ⟨by simp [heq], hne, hdig, ?_, hpost⟩
    cases pre with
    | nil => exact hpre
    | cons p ps =>
      rw [List.getLast?_cons_cons]
      exact hpre

theorem versionParseSpec_shift {c : Char} {cs : List Char} {prev : Bool}
    {o : Option Nat}
    (hhead : ∀ run post, ¬ BoundedDigitRun prev (c :: cs) [] run post)
    (h : VersionParseSpec (isWordChar c) cs o) :
    VersionParseSpec prev (c :: cs) o := by
  cases o with
  | none =>
    intro pre run post hb
    cases pre with
    | nil => exact hhead run post hb
    | cons p ps =>
      have hpc : p = c := by
        obtain ⟨heq, _, _, _, _⟩ := hb
        symm
        simpa using congrArg List.head? heq
      subst hpc
      exact h ps run post (boundedDigitRun_cons.mp hb)
  | some v =>
    obtain ⟨pre, run, post, hb, hv, hmin⟩ := h
    refine ⟨c :: pre, run, post, boundedDigitRun_cons.mpr hb, hv, ?_⟩
    intro pre2 run2 post2 hb2
    cases pre2 with
    | nil => exact absurd hb2 (hhead run2 post2)
    | cons p ps =>
      have hpc : p = c := by
        obtain ⟨heq, _, _, _, _⟩ := hb2
        symm
        simpa using congrArg List.head? heq
      subst hpc
      have hle := hmin ps run2 post2 (boundedDigitRun_cons.mp hb2)
      simpa using Nat.succ_le_succ hle

/-- The regex-search model satisfies its declarative first-match
specification, for every scan state `prev`. -/
theorem findVersionNum_spec :
    ∀ (cs : List Char) (prev : Bool),
      VersionParseSpec prev cs (findVersionNum cs prev)
  | [], prev => by
    intro pre run post hb
    obtain ⟨heq, hne, _, _, _⟩ := hb
    rcases List.append_eq_nil.mp heq.symm with ⟨h1, _⟩
    rcases List.append_eq_nil.mp h1 with ⟨_, hrun⟩
    exact hne hrun
  | c :: rest, prev => by
    by_cases hcd : (Char.isDigit c && !prev) = true
    · have hprev : prev = false := by
        cases prev
        · rfl
        · simp at hcd
      have hc : Char.isDigit c = true := by
        cases hdd : Char.isDigit c
        · rw [hdd] at hcd
          simp at hcd
        · rfl
      cases hdrop : List.dropWhile Char.isDigit (c :: rest) with
      | nil =>
        have hrw : findVersionNum (c :: rest) prev =
            some (natOfDigits (List.takeWhile Char.isDigit (c :: rest))) := by
          simp only [findVersionNum, if_pos hcd, hdrop]
        rw [hrw]
        refine ⟨[], List.takeWhile Char.isDigit (c :: rest),
          List.dropWhile Char.isDigit (c :: rest),
          ⟨(List.takeWhile_append_dropWhile _ _).symm,
           by simp [List.takeWhile_cons, hc],
           fun x hx => List.mem_takeWhile_imp hx, hprev, ?_⟩, rfl,
          fun pre2 run2 post2 _ => Nat.zero_le _⟩
        rw [hdrop]
        intro x hx
        cases hx
      | cons d ds =>
        by_cases hw : isWordChar d = true
        · have hrw : findVersionNum (c :: rest) prev =
              findVersionNum rest (isWordChar c) := by
            simp only [findVersionNum, if_pos hcd, hdrop, if_pos hw]
          rw [hrw]
          exact versionParseSpec_shift (no_bounded_head_word_after hdrop hw)
            (findVersionNum_spec rest (isWordChar c))
        · have hwf : isWordChar d = false := Bool.eq_false_iff.mpr hw
          have hrw : findVersionNum (c :: rest) prev =
              some (natOfDigits (List.takeWhile Char.isDigit (c :: rest))) := by
            simp only [findVersionNum, if_pos hcd, hdrop, if_neg hw]
          rw [hrw]
          refine ⟨[], List.takeWhile Char.isDigit (c :: rest),
            List.dropWhile Char.isDigit (c :: rest),
            ⟨(List.takeWhile_append_dropWhile _ _).symm,
             by simp [List.takeWhile_cons, hc],
             fun x hx => List.mem_takeWhile_imp hx, hprev, ?_⟩, rfl,
            fun pre2 run2 post2 _ => Nat.zero_le _⟩
          rw [hdrop]
          intro x hx
          have hxd : d = x := by simpa using hx
          rw [← hxd]
          exact hwf
    · have hrw : findVersionNum (c :: rest) prev =
          findVersionNum rest (isWordChar c) := by
        simp only [findVersionNum, if_neg hcd]
      rw [hrw]
      exact versionParseSpec_shift
        (no_bounded_head_not_start (Bool.eq_false_iff.mpr hcd))
        (findVersionNum_spec rest (isWordChar c))

/-- C3 (counterexample): the claim reads "the integer value of the first run
of digits found in the output".  For exit code 0 with stdout `"v2\n"` the
examined text is `"v2"`, whose only (hence first) run of digits is `"2"` with
value 2 — but `version` returns `none`, because the source's
`re.search(r"\b(\d+)\b", ...)` additionally demands word boundaries and the
letter `v` touching the run defeats them. -/
theorem spec2_C3_counterexample :
    firstDigitRun (MigrateWrapper.selectedOutput ⟨0, "v2\n", ""⟩) = some 2 ∧
    MigrateWrapper.version ⟨0, "v2\n", ""⟩ = none := by
  decide

/-- C3 (amended): `version` never raises (it is embedded as a total
function); it prefers the stripped stdout and falls back to the stripped
stderr only when stdout strips to empty; for exit code 0 the result is
exactly described by `VersionParseSpec`: `none` when the examined text has no
word-boundary-delimited run of digits, and otherwise the integer value of the
first such run (a digit run not immediately adjacent to any letter, digit or
underscore); any non-zero exit yields `none`.  The claim's six examples
evaluate as stated. -/
theorem spec2_C3_amended (res : ProcResult) :
    (res.returncode ≠ 0 → MigrateWrapper.version res = none) ∧
    (trimChars res.stdout.toList ≠ [] →
      MigrateWrapper.selectedOutput res = trimChars res.stdout.toList) ∧
    (trimChars res.stdout.toList = [] → res.stderr ≠ "" →
      MigrateWrapper.selectedOutput res = trimChars res.stderr.toList) ∧
    (res.returncode = 0 →
      (MigrateWrapper.version res = none ∧
        VersionParseSpec false (MigrateWrapper.selectedOutput res) none) ∨
      (∃ n : Nat, MigrateWrapper.version res = some (Int.ofNat n) ∧
        VersionParseSpec false (MigrateWrapper.selectedOutput res) (some n))) ∧
    MigrateWrapper.version ⟨0, "version: 3\n", ""⟩ = some 3 ∧
    MigrateWrapper.version ⟨0, "", "1\n"⟩ = some 1 ∧
    MigrateWrapper.version ⟨0, "2\n", "1\n"⟩ = some 2 ∧
    MigrateWrapper.version ⟨0, "3 (dirty)\n", ""⟩ = some 3 ∧
    MigrateWrapper.version ⟨0, "no migration\n", ""⟩ = none ∧
    MigrateWrapper.version ⟨1, "7", ""⟩ = none := by
  refine ⟨?_, ?_, ?_, ?_, by decide, by decide, by decide, by decide,
    by decide, by decide⟩
  · intro h
    simp [MigrateWrapper.version, h]
  · intro h
    have hie : (trimChars res.stdout.toList).isEmpty = false :=
      Bool.eq_false_iff.mpr (fun hh => h (List.isEmpty_iff.mp hh))
    simp only [MigrateWrapper.selectedOutput]
    rw [if_neg (by
      simp only [Bool.and_eq_true, bne_iff_ne, List.isEmpty_iff, not_and]
      intro hh
      exact absurd hh h)]
  · intro h1 h2
    have hsn : (res.stderr != "") = true := by simp [h2]
    simp only [MigrateWrapper.selectedOutput]
    rw [if_pos (by
      simp only [Bool.and_eq_true, bne_iff_ne, List.isEmpty_iff]
      exact ⟨h1, h2⟩)]
  · intro h
    have hval : MigrateWrapper.version res =
        (findVersionNum (MigrateWrapper.selectedOutput res) false).map Int.ofNat := by
      simp only [MigrateWrapper.version, if_pos h]
      by_cases ho : (MigrateWrapper.selectedOutput res).isEmpty
      · rw [if_pos ho]
        rw [List.isEmpty_iff] at ho
        rw [ho]
        rfl
      · rw [if_neg ho]
    have hspec := findVersionNum_spec (MigrateWrapper.selectedOutput res) false
    cases hfv : findVersionNum (MigrateWrapper.selectedOutput res) false with
    | none =>
      left
      rw [hfv] at hspec
      exact ⟨by rw [hval, hfv]; rfl, hspec⟩
    | some n =>
      right
      rw [hfv] at hspec
      exact ⟨n, by rw [hval, hfv]; rfl, hspec⟩

/-- C3 (witness): the amended theorem applied at concrete inputs, discharging
the non-zero-exit and the non-empty-stdout hypotheses. -/
theorem spec2_C3_witness :
    MigrateWrapper.version ⟨2, "9", ""⟩ = none ∧
    MigrateWrapper.selectedOutput ⟨0, " 7 ", "x"⟩ = trimChars " 7 ".toList :=
  ⟨(spec2_C3_amended ⟨2, "9", ""⟩).1 (by decide),
   (spec2_C3_amended ⟨0, " 7 ", "x"⟩).2.1 (by decide)⟩
